import Mathlib

/-!
Verification of the puzzle engine and game-session state machine of the
jugo-leptos sliding-puzzle application.

The embedding covers:
* `GameState` and `GameState.solve_time` (src/app.rs, `enum GameState` and its
  `solve_time` method); the wall clock is modelled as a `Nat` parameter `now`,
  and `since.elapsed()` as the truncated difference `now - since`.
* the `UpdateGuard` / `update_guarded` machinery (src/signal_ext.rs): a closure
  that interacts with the guard is deep-embedded as a `GuardProg`, whose
  `modify` constructor is the `DerefMut` access that sets the `updated` cell.
* the `slide` closure and the `on_keydown` handler (src/app.rs): the reactive
  signals become fields of a `Session` record threaded explicitly.
* the board operations of the external `jugo` crate (`slide_from`,
  `is_solved`, `random_with_rng`), which are not part of this repository's
  sources; those are modelled from the specification, as marked on each
  definition.
-/

namespace Jugo

/-- Game-session state from src/app.rs: `NotSolving`, `Solving { since }`,
`Solved { took }`.  Timestamps and durations are `Nat`s. -/
inductive GameState where
  | NotSolving : GameState
  | Solving (since : Nat) : GameState
  | Solved (took : Nat) : GameState
deriving DecidableEq, Repr

/-- `GameState::solve_time` from src/app.rs: `Solving { since }` yields
`since.elapsed()` (modelled `now - since`), `Solved { took }` yields the
stored `took`, and `NotSolving` yields `None`. -/
def GameState.solve_time (now : Nat) : GameState → Option Nat
  | .Solving since => some (now - since)
  | .Solved took => some took
  | .NotSolving => none

/-- Deep embedding of a closure that receives an `UpdateGuard<T>`
(src/signal_ext.rs).  `read` is access through `Deref`, `modify` is access
through `DerefMut` (the only way to mutate, and the access that sets the
`updated` flag); `pure` returns the closure's result. -/
inductive GuardProg (T R : Type) where
  | pure (r : R) : GuardProg T R
  | read (k : T → GuardProg T R) : GuardProg T R
  | modify (g : T → T) (k : T → GuardProg T R) : GuardProg T R

/-- Running a guarded closure on the signal's current value: returns the final
value, the closure's result, and whether `DerefMut` was invoked at least once
(the final state of the `updated` cell). -/
def GuardProg.run {T R : Type} : GuardProg T R → T → T × R × Bool
  | .pure r, t => (t, r, false)
  | .read k, t => GuardProg.run (k t) t
  | .modify g k, t =>
      let res := GuardProg.run (k (g t)) (g t)
      (res.1, res.2.1, true)

/-- Result of `update_guarded`: the value left in the signal, the returned
`Option<R>`, and whether subscribers were notified (`self.update(|_| {})`). -/
structure GuardResult (T R : Type) where
  value : T
  result : Option R
  notified : Bool
deriving Repr

/-- `SignalUpdateConditional::update_guarded` from src/signal_ext.rs:
`try_update_untracked` applies the closure to the stored value; if the
`updated` cell ends up `true`, subscribers are notified and `Some(result)` is
returned, otherwise nothing is notified and `None` is returned. -/
def update_guarded {T R : Type} (f : GuardProg T R) (t : T) : GuardResult T R :=
  let res := f.run t
  if res.2.2 then ⟨res.1, some res.2.1, true⟩ else ⟨res.1, none, false⟩

/-- The closure passed to `game_state.update_guarded` inside `slide`
(src/app.rs lines 47-59): match on the state through `Deref`; write a new
state through `DerefMut` only in the `NotSolving` arm and in the
`Solving`-and-now-solved arm. `solved` is `puzzle.is_solved()` observed after
the move. -/
def slideClosure (solved : Bool) (now : Nat) : GuardProg GameState Unit :=
  .read fun st =>
    match st with
    | .NotSolving => .modify (fun _ => .Solving now) (fun _ => .pure ())
    | .Solving since =>
        if solved then .modify (fun _ => .Solved (now - since)) (fun _ => .pure ())
        else .pure ()
    | .Solved _ => .pure ()

/-- The game state after the `slide` closure in src/app.rs: when
`update_if_some` reports no tile moved (`moved = 0`) the function returns
early and the state is untouched; otherwise the state signal is updated
through `update_guarded (slideClosure ...)`. -/
def gameStateAfterSlide (moved : Nat) (solved : Bool) (now : Nat)
    (st : GameState) : GameState :=
  if moved = 0 then st else (update_guarded (slideClosure solved now) st).value

/-- Board of an N×M sliding puzzle (the `BoxPuzzle` owned by
`SeedablePuzzle`): a `shape = (width, height)` and a row-major list of piece
labels, position index `y * width + x`, label `0` being the hole. -/
structure Board where
  width : Nat
  height : Nat
  cells : List Nat
deriving DecidableEq, Repr

/-- Number of cells of the board. -/
def Board.size (b : Board) : Nat := b.width * b.height

/-- The board invariant from the data model: the cells are a permutation of
`0 .. width*height` (hence exactly one hole). -/
def Board.WF (b : Board) : Prop := b.cells.Perm (List.range b.size)

/-- Row-major position index of the hole (the unique cell holding `0`). -/
def Board.holeIdx (b : Board) : Nat := b.cells.indexOf 0

/-- Column of the hole. -/
def Board.holeX (b : Board) : Nat := b.holeIdx % b.width

/-- Row of the hole. -/
def Board.holeY (b : Board) : Nat := b.holeIdx / b.width

/-- New content of the cell at position `p` after a horizontal slide from
column `ox` toward the hole at `(hx, hy)`: the origin cell becomes the hole,
each cell strictly between origin and hole, hole included, receives the piece
one step away on the origin's side, everything else keeps its piece. -/
def rowSlideCell (b : Board) (hx hy ox : Nat) (p : Nat) : Nat :=
  let px := p % b.width
  let py := p / b.width
  if py = hy then
    if px = ox then 0
    else if ox < px ∧ px ≤ hx then b.cells.getD (p - 1) 0
    else if hx ≤ px ∧ px < ox then b.cells.getD (p + 1) 0
    else b.cells.getD p 0
  else b.cells.getD p 0

/-- New content of the cell at position `p` after a vertical slide from row
`oy` toward the hole at `(hx, hy)`; mirror of `rowSlideCell`. -/
def colSlideCell (b : Board) (hx hy oy : Nat) (p : Nat) : Nat :=
  let px := p % b.width
  let py := p / b.width
  if px = hx then
    if py = oy then 0
    else if oy < py ∧ py ≤ hy then b.cells.getD (p - b.width) 0
    else if hy ≤ py ∧ py < oy then b.cells.getD (p + b.width) 0
    else b.cells.getD p 0
  else b.cells.getD p 0

/-- Modelled from the spec: `jugo::Puzzle::slide_from`, absent from this
repository's sources.  If `origin` lies in the hole's row (resp. column),
every tile between `origin` and the hole, origin included, shifts one cell
toward the hole, the hole lands on `origin`, and the count of displaced tiles
(the cell distance between origin and hole) is returned; if `origin` is the
hole itself or shares neither row nor column with it, the board is returned
unchanged with count `0`. -/
def Board.slide_from (b : Board) (origin : Nat × Nat) : Board × Nat :=
  let ox := origin.1
  let oy := origin.2
  if ox < b.width ∧ oy < b.height then
    let hx := b.holeIdx % b.width
    let hy := b.holeIdx / b.width
    if ox = hx ∧ oy = hy then (b, 0)
    else if oy = hy then
      (⟨b.width, b.height, (List.range b.size).map (rowSlideCell b hx hy ox)⟩,
        max ox hx - min ox hx)
    else if ox = hx then
      (⟨b.width, b.height, (List.range b.size).map (colSlideCell b hx hy oy)⟩,
        max oy hy - min oy hy)
    else (b, 0)
  else (b, 0)

/-- Modelled from the spec: `jugo::Puzzle::is_solved`, absent from this
repository's sources.  True iff every non-hole piece's label equals its
position index plus one and the hole sits at the last position. -/
def Board.is_solved (b : Board) : Bool :=
  (List.range b.size).all fun i =>
    let c := b.cells.getD i 0
    if c = 0 then i == b.size - 1 else c == i + 1

/-- The canonical solved ordering `[1, 2, ..., n-1, 0]`. -/
def canonicalCells (n : Nat) : List Nat :=
  (List.range n).map fun i => if i = n - 1 then 0 else i + 1

/-- Swap the entries at positions `i` and `j` of a list (used to state the
single-adjacent-transposition perturbations of the solved ordering). -/
def swapCells (l : List Nat) (i j : Nat) : List Nat :=
  (l.set i (l.getD j 0)).set j (l.getD i 0)

/-- State of the reproducible pseudo-random generator named in src/app.rs
(`Xoshiro256StarStar`): four 64-bit words, kept as `Nat`s below `2 ^ 64`. -/
structure Xoshiro where
  s0 : Nat
  s1 : Nat
  s2 : Nat
  s3 : Nat
deriving Repr

/-- 64-bit left rotation on `Nat`s below `2 ^ 64`. -/
def rotl64 (x k : Nat) : Nat := (x * 2 ^ k) % 2 ^ 64 + x / 2 ^ (64 - k)

/-- One step of the xoshiro256** generator: the output word and the next
state (the public algorithm of the `rand_xoshiro` crate's
`Xoshiro256StarStar::next_u64`). -/
def Xoshiro.next (st : Xoshiro) : Nat × Xoshiro :=
  let out := rotl64 (st.s1 * 5 % 2 ^ 64) 7 * 9 % 2 ^ 64
  let t := st.s1 * 2 ^ 17 % 2 ^ 64
  let s2 := st.s2 ^^^ st.s0
  let s3 := st.s3 ^^^ st.s1
  let s1 := st.s1 ^^^ s2
  let s0 := st.s0 ^^^ s3
  let s2t := s2 ^^^ t
  (out, ⟨s0, s1, s2t, rotl64 s3 45⟩)

/-- Read one little-endian 64-bit word out of a byte sequence starting at
byte offset `off`. -/
def leWord (seed : List Nat) (off : Nat) : Nat :=
  (List.range 8).foldr (fun j acc => acc * 256 + seed.getD (off + j) 0) 0

/-- `Xoshiro256StarStar::from_seed`: the 32-byte seed read as four
little-endian 64-bit state words. -/
def Xoshiro.from_seed (seed : List Nat) : Xoshiro :=
  ⟨leWord seed 0, leWord seed 8, leWord seed 16, leWord seed 24⟩

/-- Fisher-Yates shuffle driven by the generator: at index `i + 1` draw
`j ≤ i + 1` and swap, recursing downward. -/
def shuffleAux (rng : Xoshiro) (l : List Nat) : Nat → List Nat × Xoshiro
  | 0 => (l, rng)
  | i + 1 =>
      let step := rng.next
      shuffleAux step.2 (swapCells l (i + 1) (step.1 % (i + 2))) i

/-- Modelled from the spec: `jugo::BoxPuzzle::random_with_rng`, absent from
this repository's sources.  Deterministically derives a pseudo-random
permutation of `0 .. w*h` from the generator state and applies it as the
initial board of the given shape. -/
def random_with_rng (rng : Xoshiro) (shape : Nat × Nat) : Board :=
  match shape.1 * shape.2 with
  | 0 => ⟨shape.1, shape.2, []⟩
  | k + 1 => ⟨shape.1, shape.2, (shuffleAux rng (List.range (k + 1)) k).1⟩

/-- `SeedablePuzzle::new_from_seed` from src/app.rs: seed the generator from
the 32 bytes, generate the board, and store the seed alongside it. -/
def new_from_seed (seed : List Nat) (shape : Nat × Nat) : Board × List Nat :=
  (random_with_rng (Xoshiro.from_seed seed) shape, seed)

/-- The reactive state owned by the `App` component (src/app.rs): the
seedable puzzle (board plus stored seed), the input history string, the dev
mode flag, and the game state. -/
structure Session where
  board : Board
  seed : List Nat
  history : String
  devMode : Bool
  state : GameState
deriving Repr

/-- `KEY_IDX_MAP` from src/app.rs: the 16 move-request keys and the board
coordinates they target. -/
def keyIdxMap (key : String) : Option (Nat × Nat) :=
  match key with
  | "4" => some (0, 0) | "5" => some (1, 0) | "6" => some (2, 0) | "7" => some (3, 0)
  | "r" => some (0, 1) | "t" => some (1, 1) | "y" => some (2, 1) | "u" => some (3, 1)
  | "f" => some (0, 2) | "g" => some (1, 2) | "h" => some (2, 2) | "j" => some (3, 2)
  | "v" => some (0, 3) | "b" => some (1, 3) | "n" => some (2, 3) | "m" => some (3, 3)
  | _ => none

/-- The `slide` closure from src/app.rs: run `slide_from` on the puzzle; on a
zero result return `0` with nothing else touched; otherwise feed the observed
`is_solved` of the updated board into the guarded game-state update and
return the count. -/
def Session.slide (s : Session) (origin : Nat × Nat) (now : Nat) :
    Session × Nat :=
  let res := s.board.slide_from origin
  match res.2 with
  | 0 => (s, 0)
  | moved + 1 =>
      let st := (update_guarded (slideClosure res.1.is_solved now) s.state).value
      ({ s with board := res.1, state := st }, moved + 1)

/-- The `on_keydown` handler from src/app.rs.  `now` is the current instant
and `fresh` the 32 bytes `rand::thread_rng().gen()` would produce for the
space-bar regeneration. -/
def onKeydown (key : String) (now : Nat) (fresh : List Nat) (s : Session) :
    Session :=
  if key = " " then
    let p := new_from_seed fresh (s.board.width, s.board.height)
    { s with board := p.1, seed := p.2, history := "", state := .NotSolving }
  else if key = "D" then { s with devMode := !s.devMode }
  else if key = "1" then { s with state := .NotSolving }
  else if key = "2" then { s with state := .Solving now }
  else if key = "3" then
    match s.state with
    | .Solving since => { s with state := .Solved (now - since) }
    | _ => s
  else
    match keyIdxMap key with
    | some idx =>
        let res := s.slide idx now
        if 0 < res.2 then { res.1 with history := res.1.history ++ key }
        else res.1
    | none => s

/-! ## Helper lemmas -/

/-- `getD` agrees with `getElem` inside the list. -/
theorem getD_of_lt (l : List Nat) (p : Nat) (h : p < l.length) :
    l.getD p 0 = l[p] := by
  simp [List.getD_eq_getElem?_getD, List.getElem?_eq_getElem h]

/-- `getD` over a mapped range evaluates pointwise. -/
theorem mapRange_getD (n : Nat) (f : Nat → Nat) (p : Nat) (h : p < n) :
    ((List.range n).map f).getD p 0 = f p := by
  have hlen : p < ((List.range n).map f).length := by simpa using h
  rw [getD_of_lt _ _ hlen]
  simp

/-- Row-major index of an in-bounds coordinate is in bounds. -/
theorem rowMajor_lt {x y w h : Nat} (hx : x < w) (hy : y < h) :
    y * w + x < w * h :=
  calc y * w + x < y * w + w := by omega
  _ = (y + 1) * w := by ring
  _ ≤ h * w := Nat.mul_le_mul_right w (by omega)
  _ = w * h := Nat.mul_comm h w

/-- Column of a row-major index built from in-bounds coordinates. -/
theorem rowMajor_mod (x y w : Nat) (hx : x < w) : (y * w + x) % w = x := by
  rw [Nat.add_comm, Nat.add_mul_mod_self_right, Nat.mod_eq_of_lt hx]

/-- Row of a row-major index built from in-bounds coordinates. -/
theorem rowMajor_div (x y w : Nat) (hx : x < w) : (y * w + x) / w = y := by
  rw [Nat.add_comm, Nat.add_mul_div_right _ _ (by omega : 0 < w),
    Nat.div_eq_of_lt hx, Nat.zero_add]

/-- Moving one row up in row-major coordinates. -/
theorem rowMajor_sub_width (y w x : Nat) (hy : 1 ≤ y) :
    y * w + x - w = (y - 1) * w + x := by
  cases y with
  | zero => omega
  | succ y0 =>
      simp only [Nat.succ_mul, Nat.succ_sub_one]
      omega

/-- Moving one row down in row-major coordinates. -/
theorem rowMajor_add_width (y w x : Nat) :
    y * w + x + w = (y + 1) * w + x := by
  simp only [Nat.succ_mul]
  omega

/-- A guarded closure that never touched `DerefMut` leaves the value intact. -/
theorem GuardProg.run_of_not_mut {T R : Type} (f : GuardProg T R) :
    ∀ t : T, (f.run t).2.2 = false → (f.run t).1 = t := by
  induction f with
  | pure r => intro t _; rfl
  | read k ih =>
      intro t h
      rw [GuardProg.run] at h ⊢
      exact ih t t h
  | modify g k ih =>
      intro t h
      simp [GuardProg.run] at h

/-- `Session.slide` never touches the history string. -/
theorem Session.slide_history (s : Session) (origin : Nat × Nat) (now : Nat) :
    ((s.slide origin now)).1.history = s.history := by
  unfold Session.slide
  dsimp only
  split <;> rfl

/-- `random_with_rng` produces a board of the requested shape. -/
theorem random_with_rng_shape (rng : Xoshiro) (shape : Nat × Nat) :
    (random_with_rng rng shape).width = shape.1
    ∧ (random_with_rng rng shape).height = shape.2 := by
  unfold random_with_rng
  split <;> exact ⟨rfl, rfl⟩

/-! ## Claim theorems -/

/-- C2: generating a board from a 32-byte seed and a shape is deterministic:
two independent calls of `new_from_seed` with identical seed and identical
shape produce bit-identical boards (and stored seeds). -/
theorem new_from_seed_deterministic (shape : Nat × Nat)
    (seed1 seed2 : List Nat) (h : seed1 = seed2) :
    new_from_seed seed1 shape = new_from_seed seed2 shape := by
  rw [h]

theorem new_from_seed_deterministic_witness :
    new_from_seed (List.replicate 32 0) (2, 2)
      = new_from_seed (List.replicate 32 0) (2, 2) :=
  new_from_seed_deterministic (2, 2) (List.replicate 32 0)
    (List.replicate 32 0) rfl

/-- C3: on a successful move (`0 < moved`) the game-state step realises the
spec's transition table: `NotSolving` goes to `Solving now`; `Solving since`
with the board then solved goes to `Solved (now - since)`; `Solving since`
with the board not solved is unchanged; and a move with `moved = 0` never
changes the state. -/
theorem slide_transition_table :
    (∀ (moved : Nat) (solved : Bool) (now : Nat), 0 < moved →
        gameStateAfterSlide moved solved now .NotSolving = .Solving now)
    ∧ (∀ (moved now since : Nat), 0 < moved →
        gameStateAfterSlide moved true now (.Solving since)
          = .Solved (now - since))
    ∧ (∀ (moved now since : Nat), 0 < moved →
        gameStateAfterSlide moved false now (.Solving since)
          = .Solving since)
    ∧ (∀ (solved : Bool) (now : Nat) (st : GameState),
        gameStateAfterSlide 0 solved now st = st) := by
  refine ⟨?_, ?_, ?_, ?_⟩
  · intro moved solved now hm
    simp [gameStateAfterSlide, Nat.pos_iff_ne_zero.mp hm, update_guarded,
      slideClosure, GuardProg.run]
  · intro moved now since hm
    simp [gameStateAfterSlide, Nat.pos_iff_ne_zero.mp hm, update_guarded,
      slideClosure, GuardProg.run]
  · intro moved now since hm
    simp [gameStateAfterSlide, Nat.pos_iff_ne_zero.mp hm, update_guarded,
      slideClosure, GuardProg.run]
  · intro solved now st
    simp [gameStateAfterSlide]

theorem slide_transition_table_witness :
    gameStateAfterSlide 3 true 100 .NotSolving = .Solving 100
    ∧ gameStateAfterSlide 1 true 100 (.Solving 40) = .Solved 60
    ∧ gameStateAfterSlide 1 false 100 (.Solving 40) = .Solving 40
    ∧ gameStateAfterSlide 0 true 100 (.Solving 40) = .Solving 40 :=
  ⟨slide_transition_table.1 3 true 100 (by decide),
   slide_transition_table.2.1 1 100 40 (by decide),
   slide_transition_table.2.2.1 1 100 40 (by decide),
   slide_transition_table.2.2.2 true 100 (.Solving 40)⟩

/-- C4: `solve_time` is `none` in `NotSolving`; in `Solving since` it is
recomputed from the live clock on every call, `some (now - since)`, and two
calls at different instants (after `since`) disagree; in `Solved took` it is
the frozen `some took`, identical at every instant. -/
theorem solve_time_spec :
    (∀ now : Nat, GameState.solve_time now .NotSolving = none)
    ∧ (∀ now since : Nat,
        GameState.solve_time now (.Solving since) = some (now - since))
    ∧ (∀ now1 now2 since : Nat, since ≤ now1 → since ≤ now2 → now1 ≠ now2 →
        GameState.solve_time now1 (.Solving since)
          ≠ GameState.solve_time now2 (.Solving since))
    ∧ (∀ now1 now2 took : Nat,
        GameState.solve_time now1 (.Solved took)
            = GameState.solve_time now2 (.Solved took)
          ∧ GameState.solve_time now1 (.Solved took) = some took) := by
  refine ⟨fun _ => rfl, fun _ _ => rfl, ?_, fun _ _ _ => ⟨rfl, rfl⟩⟩
  intro now1 now2 since h1 h2 hne
  simp only [GameState.solve_time, ne_eq, Option.some.injEq]
  omega

theorem solve_time_spec_witness :
    GameState.solve_time 7 .NotSolving = none
    ∧ GameState.solve_time 7 (.Solving 2) = some 5
    ∧ GameState.solve_time 7 (.Solving 2) ≠ GameState.solve_time 9 (.Solving 2)
    ∧ GameState.solve_time 7 (.Solved 4) = GameState.solve_time 123 (.Solved 4) :=
  ⟨solve_time_spec.1 7, solve_time_spec.2.1 7 2,
   solve_time_spec.2.2.1 7 9 2 (by decide) (by decide) (by decide),
   (solve_time_spec.2.2.2 7 123 4).1⟩

/-- C9: out of `NotSolving`, a successful move always lands in `Solving`,
never in `Solved`, even when the board is solved right after the move: the
solved check only fires when the state was already `Solving`. -/
theorem first_move_never_solves (moved now : Nat) (h : 0 < moved) :
    gameStateAfterSlide moved true now .NotSolving = .Solving now
    ∧ ∀ took, gameStateAfterSlide moved true now .NotSolving
        ≠ .Solved took := by
  have hstep : gameStateAfterSlide moved true now .NotSolving
      = .Solving now := by
    simp [gameStateAfterSlide, Nat.pos_iff_ne_zero.mp h, update_guarded,
      slideClosure, GuardProg.run]
  exact ⟨hstep, fun took => by rw [hstep]; exact fun hc => by cases hc⟩

theorem first_move_never_solves_witness :
    gameStateAfterSlide 1 true 5 .NotSolving = .Solving 5
    ∧ gameStateAfterSlide 1 true 5 .NotSolving ≠ .Solved 0 :=
  ⟨(first_move_never_solves 1 5 (by decide)).1,
   (first_move_never_solves 1 5 (by decide)).2 0⟩

/-- C10: `update_guarded f` returns `some` of the closure's result and
notifies subscribers exactly when the closure went through `DerefMut` at
least once; a read-only closure yields `none`, leaves the value untouched and
notifies nobody — in particular a successful move that keeps the session in
`Solving` with the board unsolved triggers no game-state notification. -/
theorem update_guarded_notifies_iff :
    (∀ {T R : Type} (f : GuardProg T R) (t : T),
        ((f.run t).2.2 = true →
            update_guarded f t = ⟨(f.run t).1, some (f.run t).2.1, true⟩)
        ∧ ((f.run t).2.2 = false → update_guarded f t = ⟨t, none, false⟩))
    ∧ (∀ since now : Nat,
        update_guarded (slideClosure false now) (.Solving since)
          = ⟨.Solving since, none, false⟩) := by
  constructor
  · intro T R f t
    constructor
    · intro h
      simp [update_guarded, h]
    · intro h
      simp [update_guarded, h, GuardProg.run_of_not_mut f t h]
  · intro since now
    rfl

theorem update_guarded_notifies_iff_witness :
    update_guarded (.modify (fun n => n + 1) fun n => .pure n) (0 : Nat)
        = ⟨1, some 1, true⟩
    ∧ update_guarded (.read fun n => .pure n) (5 : Nat) = ⟨5, none, false⟩ :=
  ⟨(update_guarded_notifies_iff.1
      (.modify (fun n => n + 1) fun n => .pure n) (0 : Nat)).1 rfl,
   (update_guarded_notifies_iff.1
      (.read fun n => .pure n) (5 : Nat)).2 rfl⟩

/-- C8: the "force solved" debug key, in `Solving since`, freezes the state
to `Solved (now - since)`; in `NotSolving` or `Solved` it is a silent no-op
leaving the whole session unchanged. -/
theorem force_solved_spec (now : Nat) (fresh : List Nat) (s : Session) :
    (∀ since, s.state = .Solving since →
        onKeydown "3" now fresh s = { s with state := .Solved (now - since) })
    ∧ (s.state = .NotSolving → onKeydown "3" now fresh s = s)
    ∧ (∀ took, s.state = .Solved took → onKeydown "3" now fresh s = s) := by
  refine ⟨?_, ?_, ?_⟩
  · intro since h
    simp [onKeydown, h]
  · intro h
    simp [onKeydown, h]
  · intro took h
    simp [onKeydown, h]

theorem force_solved_spec_witness :
    onKeydown "3" 100 [] ⟨⟨4, 4, canonicalCells 16⟩, [], "", false, .Solving 40⟩
        = ⟨⟨4, 4, canonicalCells 16⟩, [], "", false, .Solved 60⟩
    ∧ onKeydown "3" 100 []
          ⟨⟨4, 4, canonicalCells 16⟩, [], "", false, .NotSolving⟩
        = ⟨⟨4, 4, canonicalCells 16⟩, [], "", false, .NotSolving⟩ :=
  ⟨(force_solved_spec 100 []
      ⟨⟨4, 4, canonicalCells 16⟩, [], "", false, .Solving 40⟩).1 40 rfl,
   (force_solved_spec 100 []
      ⟨⟨4, 4, canonicalCells 16⟩, [], "", false, .NotSolving⟩).2.1 rfl⟩

/-- C5: the space-bar reset, from any session state, replaces the board by a
freshly generated one of the same shape (seeded by the fresh
non-deterministic bytes), clears the move history, and puts the game state
back to `NotSolving`. -/
theorem reset_spec (now : Nat) (fresh : List Nat) (s : Session) :
    (onKeydown " " now fresh s).board.width = s.board.width
    ∧ (onKeydown " " now fresh s).board.height = s.board.height
    ∧ (onKeydown " " now fresh s).board
        = (new_from_seed fresh (s.board.width, s.board.height)).1
    ∧ (onKeydown " " now fresh s).seed = fresh
    ∧ (onKeydown " " now fresh s).history = ""
    ∧ (onKeydown " " now fresh s).state = .NotSolving := by
  have hb : onKeydown " " now fresh s
      = { s with
            board := (new_from_seed fresh (s.board.width, s.board.height)).1,
            seed := fresh, history := "", state := .NotSolving } := by
    simp [onKeydown, new_from_seed]
  rw [hb]
  refine ⟨?_, ?_, rfl, rfl, rfl, rfl⟩
  · exact (random_with_rng_shape _ _).1
  · exact (random_with_rng_shape _ _).2

/-- C7: history write discipline of `on_keydown`: for a move-request key the
input token is appended exactly when the move displaced at least one tile;
the debug keys leave the history alone; the space-bar regeneration clears
it. -/
theorem history_append_discipline (key : String) (now : Nat)
    (fresh : List Nat) (s : Session) :
    (key ≠ " " → key ≠ "D" → key ≠ "1" → key ≠ "2" → key ≠ "3" →
        (onKeydown key now fresh s).history =
          match keyIdxMap key with
          | some idx =>
              if 0 < (s.slide idx now).2 then s.history ++ key else s.history
          | none => s.history)
    ∧ (key = "D" ∨ key = "1" ∨ key = "2" ∨ key = "3" →
        (onKeydown key now fresh s).history = s.history)
    ∧ (onKeydown " " now fresh s).history = "" := by
  refine ⟨?_, ?_, by simp [onKeydown]⟩
  · intro h1 h2 h3 h4 h5
    simp only [onKeydown, if_neg h1, if_neg h2, if_neg h3, if_neg h4,
      if_neg h5]
    cases hmap : keyIdxMap key with
    | none => simp
    | some idx =>
        dsimp only
        rw [Session.slide_history s idx now]
        split
        · rfl
        · exact Session.slide_history s idx now
  · rintro (h | h | h | h) <;> subst h <;>
      simp only [onKeydown, reduceIte] <;>
      first
        | rfl
        | (cases s.state <;> rfl)

theorem history_append_discipline_witness :
    (onKeydown "v" 100 []
        ⟨⟨4, 4, canonicalCells 16⟩, [], "", false, .NotSolving⟩).history
      = "v" := by
  have h := (history_append_discipline "v" 100 []
      ⟨⟨4, 4, canonicalCells 16⟩, [], "", false, .NotSolving⟩).1
    (by decide) (by decide) (by decide) (by decide) (by decide)
  rw [h]
  rfl

/-- The canonical ordering, read through `getD`. -/
theorem canonicalCells_getD (n p : Nat) (h : p < n) :
    (canonicalCells n).getD p 0 = if p = n - 1 then 0 else p + 1 := by
  unfold canonicalCells
  rw [mapRange_getD n _ p h]

/-- C6: on a well-formed board, `is_solved` holds exactly for the canonical
ordering `[1, 2, ..., w*h-1, 0]` — every non-hole label equals its position
index plus one and the hole sits last — and fails on every
single-adjacent-transposition perturbation of that ordering. -/
theorem is_solved_iff_canonical (b : Board) (hwf : b.WF) :
    (b.is_solved = true ↔ b.cells = canonicalCells b.size)
    ∧ (∀ i, i + 1 < b.size →
        Board.is_solved
          ⟨b.width, b.height, swapCells (canonicalCells b.size) i (i + 1)⟩
          = false) := by
  have hlen : b.cells.length = b.size :=
    hwf.length_eq.trans (List.length_range b.size)
  have hlenc : (canonicalCells b.size).length = b.size := by
    simp [canonicalCells]
  constructor
  · constructor
    · intro hs
      have hall := List.all_eq_true.mp hs
      apply List.ext_getElem (by rw [hlen, hlenc])
      intro i h1 h2
      have hi : i < b.size := by rwa [hlen] at h1
      have hp := hall i (List.mem_range.mpr hi)
      rw [getD_of_lt _ _ h1] at hp
      have hc : (canonicalCells b.size)[i]
          = if i = b.size - 1 then 0 else i + 1 := by
        simp [canonicalCells]
      rw [hc]
      by_cases h0 : b.cells[i] = 0
      · have hieq : i = b.size - 1 := by
          rw [if_pos h0] at hp
          exact eq_of_beq hp
        rw [if_pos hieq, h0]
      · have hval : b.cells[i] = i + 1 := by
          rw [if_neg h0] at hp
          exact eq_of_beq hp
        have hmem : b.cells[i] ∈ b.cells := List.getElem_mem h1
        have hlt : b.cells[i] < b.size :=
          List.mem_range.mp (hwf.mem_iff.mp hmem)
        have hine : i ≠ b.size - 1 := by omega
        rw [if_neg hine, hval]
    · intro hc
      simp only [Board.is_solved, hc]
      apply List.all_eq_true.mpr
      intro x hx
      have hxn := List.mem_range.mp hx
      rw [canonicalCells_getD b.size x hxn]
      by_cases hx1 : x = b.size - 1
      · simp [hx1]
      · simp [hx1]
  · intro i hi
    have hlens :
        (swapCells (canonicalCells b.size) i (i + 1)).length = b.size := by
      simp [swapCells, hlenc]
    have hgi : (swapCells (canonicalCells b.size) i (i + 1)).getD i 0
        = if i + 1 = b.size - 1 then 0 else i + 2 := by
      rw [getD_of_lt _ i (by rw [hlens]; omega)]
      unfold swapCells
      rw [List.getElem_set_ne (by omega)]
      rw [List.getElem_set_self]
      rw [canonicalCells_getD b.size (i + 1) (by omega)]
    simp only [Board.is_solved]
    apply List.all_eq_false.mpr
    refine ⟨i, List.mem_range.mpr ?_, ?_⟩
    · show i < b.size
      omega
    · have hsz : Board.size
          ⟨b.width, b.height, swapCells (canonicalCells b.size) i (i + 1)⟩
          = b.size := rfl
      rw [hsz, hgi]
      by_cases h1 : i + 1 = b.size - 1
      · rw [if_pos h1]
        simp only [if_pos rfl]
        intro hfalse
        have := eq_of_beq hfalse
        omega
      · rw [if_neg h1]
        rw [if_neg (by omega : ¬ i + 2 = 0)]
        intro hfalse
        have := eq_of_beq hfalse
        omega

/-- `slide_from` is a no-op when the origin is the hole or is not aligned
with it. -/
theorem slide_from_noop (b : Board) (ox oy : Nat)
    (hox : ox < b.width) (hoy : oy < b.height)
    (h : (ox ≠ b.holeX ∧ oy ≠ b.holeY) ∨ (ox = b.holeX ∧ oy = b.holeY)) :
    b.slide_from (ox, oy) = (b, 0) := by
  unfold Board.holeX Board.holeY at h
  unfold Board.slide_from
  dsimp only
  rw [if_pos ⟨hox, hoy⟩]
  rcases h with ⟨h1, h2⟩ | ⟨h1, h2⟩
  · rw [if_neg (fun hc => h1 hc.1), if_neg h2, if_neg h1]
  · rw [if_pos ⟨h1, h2⟩]

/-- On a row-aligned non-hole origin, `slide_from` rebuilds the cells through
`rowSlideCell` and returns the horizontal distance to the hole. -/
theorem slide_from_row_eq (b : Board) (ox oy : Nat)
    (hox : ox < b.width) (hoy : oy < b.height)
    (hrow : oy = b.holeY) (hne : ox ≠ b.holeX) :
    b.slide_from (ox, oy)
      = (⟨b.width, b.height,
          (List.range b.size).map (rowSlideCell b b.holeX b.holeY ox)⟩,
        max ox b.holeX - min ox b.holeX) := by
  unfold Board.holeY at hrow
  unfold Board.holeX at hne
  unfold Board.slide_from Board.holeX Board.holeY
  dsimp only
  rw [if_pos ⟨hox, hoy⟩, if_neg (fun hc => hne hc.1), if_pos hrow]

/-- On a column-aligned non-hole origin, `slide_from` rebuilds the cells
through `colSlideCell` and returns the vertical distance to the hole. -/
theorem slide_from_col_eq (b : Board) (ox oy : Nat)
    (hox : ox < b.width) (hoy : oy < b.height)
    (hcol : ox = b.holeX) (hne : oy ≠ b.holeY) :
    b.slide_from (ox, oy)
      = (⟨b.width, b.height,
          (List.range b.size).map (colSlideCell b b.holeX b.holeY oy)⟩,
        max oy b.holeY - min oy b.holeY) := by
  unfold Board.holeX at hcol
  unfold Board.holeY at hne
  unfold Board.slide_from Board.holeX Board.holeY
  dsimp only
  rw [if_pos ⟨hox, hoy⟩, if_neg (fun hc => hne hc.2), if_neg hne, if_pos hcol]

/-- C1: on a well-formed board with an in-bounds origin, `slide_from` is a
no-op returning `0` when the origin shares neither the hole's row nor its
column or is the hole itself; otherwise it returns the cell distance to the
hole (at least `1`), puts the hole at the vacated origin, shifts every tile
between origin and hole, origin included, one position toward the hole, and
leaves all other cells unchanged. -/
theorem slide_from_spec (b : Board) (hwf : b.WF) (ox oy : Nat)
    (hox : ox < b.width) (hoy : oy < b.height) :
    ((ox ≠ b.holeX ∧ oy ≠ b.holeY) ∨ (ox = b.holeX ∧ oy = b.holeY) →
        b.slide_from (ox, oy) = (b, 0))
    ∧ (oy = b.holeY → ox ≠ b.holeX →
        (b.slide_from (ox, oy)).2 = max ox b.holeX - min ox b.holeX
        ∧ 1 ≤ (b.slide_from (ox, oy)).2
        ∧ (b.slide_from (ox, oy)).1.width = b.width
        ∧ (b.slide_from (ox, oy)).1.height = b.height
        ∧ (b.slide_from (ox, oy)).1.cells.length = b.size
        ∧ (b.slide_from (ox, oy)).1.cells.getD (oy * b.width + ox) 0 = 0
        ∧ (∀ x, ox < x → x ≤ b.holeX →
            (b.slide_from (ox, oy)).1.cells.getD (oy * b.width + x) 0
              = b.cells.getD (oy * b.width + (x - 1)) 0)
        ∧ (∀ x, b.holeX ≤ x → x < ox →
            (b.slide_from (ox, oy)).1.cells.getD (oy * b.width + x) 0
              = b.cells.getD (oy * b.width + (x + 1)) 0)
        ∧ (∀ p, p < b.size →
            p / b.width ≠ oy ∨ p % b.width < min ox b.holeX
              ∨ max ox b.holeX < p % b.width →
            (b.slide_from (ox, oy)).1.cells.getD p 0 = b.cells.getD p 0))
    ∧ (ox = b.holeX → oy ≠ b.holeY →
        (b.slide_from (ox, oy)).2 = max oy b.holeY - min oy b.holeY
        ∧ 1 ≤ (b.slide_from (ox, oy)).2
        ∧ (b.slide_from (ox, oy)).1.width = b.width
        ∧ (b.slide_from (ox, oy)).1.height = b.height
        ∧ (b.slide_from (ox, oy)).1.cells.length = b.size
        ∧ (b.slide_from (ox, oy)).1.cells.getD (oy * b.width + ox) 0 = 0
        ∧ (∀ y, oy < y → y ≤ b.holeY →
            (b.slide_from (ox, oy)).1.cells.getD (y * b.width + ox) 0
              = b.cells.getD ((y - 1) * b.width + ox) 0)
        ∧ (∀ y, b.holeY ≤ y → y < oy →
            (b.slide_from (ox, oy)).1.cells.getD (y * b.width + ox) 0
              = b.cells.getD ((y + 1) * b.width + ox) 0)
        ∧ (∀ p, p < b.size →
            p % b.width ≠ ox ∨ p / b.width < min oy b.holeY
              ∨ max oy b.holeY < p / b.width →
            (b.slide_from (ox, oy)).1.cells.getD p 0 = b.cells.getD p 0)) := by
  have hw : 0 < b.width := by omega
  have hh : 0 < b.height := by omega
  have hn : 0 < b.size := Nat.mul_pos hw hh
  have hlen : b.cells.length = b.size :=
    hwf.length_eq.trans (List.length_range _)
  have hmem : (0 : Nat) ∈ b.cells := hwf.mem_iff.mpr (List.mem_range.mpr hn)
  have hhi : b.holeIdx < b.size := by
    have h1 := List.indexOf_lt_length.mpr hmem
    rwa [hlen] at h1
  have hhx : b.holeX < b.width := Nat.mod_lt _ hw
  have hhy : b.holeY < b.height := Nat.div_lt_of_lt_mul hhi
  refine ⟨slide_from_noop b ox oy hox hoy, ?_, ?_⟩
  · intro hrow hne
    rw [slide_from_row_eq b ox oy hox hoy hrow hne]
    dsimp only
    refine ⟨rfl, by omega, rfl, rfl, by simp, ?_, ?_, ?_, ?_⟩
    · have hp : oy * b.width + ox < b.size := rowMajor_lt hox hoy
      rw [mapRange_getD _ _ _ hp]
      unfold rowSlideCell
      dsimp only
      rw [rowMajor_mod ox oy b.width hox, rowMajor_div ox oy b.width hox]
      rw [if_pos hrow, if_pos rfl]
    · intro x h1 h2
      have hxw : x < b.width := Nat.lt_of_le_of_lt h2 hhx
      have hp : oy * b.width + x < b.size := rowMajor_lt hxw hoy
      rw [mapRange_getD _ _ _ hp]
      unfold rowSlideCell
      dsimp only
      rw [rowMajor_mod x oy b.width hxw, rowMajor_div x oy b.width hxw]
      rw [if_pos hrow, if_neg (by omega : ¬ x = ox), if_pos ⟨h1, h2⟩]
      have heq : oy * b.width + x - 1 = oy * b.width + (x - 1) := by omega
      rw [heq]
    · intro x h1 h2
      have hxw : x < b.width := Nat.lt_trans h2 hox
      have hp : oy * b.width + x < b.size := rowMajor_lt hxw hoy
      rw [mapRange_getD _ _ _ hp]
      unfold rowSlideCell
      dsimp only
      rw [rowMajor_mod x oy b.width hxw, rowMajor_div x oy b.width hxw]
      rw [if_pos hrow, if_neg (by omega : ¬ x = ox),
        if_neg (by omega : ¬(ox < x ∧ x ≤ b.holeX)), if_pos ⟨h1, h2⟩]
      rw [Nat.add_assoc]
    · intro p hp hcond
      rw [mapRange_getD _ _ _ hp]
      unfold rowSlideCell
      dsimp only
      rcases hcond with hc | hc | hc
      · rw [if_neg (fun hpe => hc (hpe.trans hrow.symm))]
      · by_cases hpy : p / b.width = b.holeY
        · rw [if_pos hpy, if_neg (by omega), if_neg (by omega),
            if_neg (by omega)]
        · rw [if_neg hpy]
      · by_cases hpy : p / b.width = b.holeY
        · rw [if_pos hpy, if_neg (by omega), if_neg (by omega),
            if_neg (by omega)]
        · rw [if_neg hpy]
  · intro hcol hne
    rw [slide_from_col_eq b ox oy hox hoy hcol hne]
    dsimp only
    refine ⟨rfl, by omega, rfl, rfl, by simp, ?_, ?_, ?_, ?_⟩
    · have hp : oy * b.width + ox < b.size := rowMajor_lt hox hoy
      rw [mapRange_getD _ _ _ hp]
      unfold colSlideCell
      dsimp only
      rw [rowMajor_mod ox oy b.width hox, rowMajor_div ox oy b.width hox]
      rw [if_pos hcol, if_pos rfl]
    · intro y h1 h2
      have hyh : y < b.height := Nat.lt_of_le_of_lt h2 hhy
      have hp : y * b.width + ox < b.size := rowMajor_lt hox hyh
      rw [mapRange_getD _ _ _ hp]
      unfold colSlideCell
      dsimp only
      rw [rowMajor_mod ox y b.width hox, rowMajor_div ox y b.width hox]
      rw [if_pos hcol, if_neg (by omega : ¬ y = oy), if_pos ⟨h1, h2⟩]
      rw [rowMajor_sub_width y b.width ox (by omega)]
    · intro y h1 h2
      have hyh : y < b.height := Nat.lt_trans h2 hoy
      have hp : y * b.width + ox < b.size := rowMajor_lt hox hyh
      rw [mapRange_getD _ _ _ hp]
      unfold colSlideCell
      dsimp only
      rw [rowMajor_mod ox y b.width hox, rowMajor_div ox y b.width hox]
      rw [if_pos hcol, if_neg (by omega : ¬ y = oy),
        if_neg (by omega : ¬(oy < y ∧ y ≤ b.holeY)), if_pos ⟨h1, h2⟩]
      rw [rowMajor_add_width y b.width ox]
    · intro p hp hcond
      rw [mapRange_getD _ _ _ hp]
      unfold colSlideCell
      dsimp only
      rcases hcond with hc | hc | hc
      · rw [if_neg (fun hpe => hc (hpe.trans hcol.symm))]
      · by_cases hpx : p % b.width = b.holeX
        · rw [if_pos hpx, if_neg (by omega), if_neg (by omega),
            if_neg (by omega)]
        · rw [if_neg hpx]
      · by_cases hpx : p % b.width = b.holeX
        · rw [if_pos hpx, if_neg (by omega), if_neg (by omega),
            if_neg (by omega)]
        · rw [if_neg hpx]

theorem slide_from_spec_witness :
    ((Board.mk 4 4 (canonicalCells 16)).slide_from (0, 3)).2 = 3
    ∧ (Board.mk 4 4 (canonicalCells 16)).slide_from (3, 3)
        = (Board.mk 4 4 (canonicalCells 16), 0) := by
  have hwf : (Board.mk 4 4 (canonicalCells 16)).WF := by
    show (canonicalCells 16).Perm (List.range 16)
    decide
  have h1 := slide_from_spec ⟨4, 4, canonicalCells 16⟩ hwf 0 3
    (by decide) (by decide)
  have h2 := slide_from_spec ⟨4, 4, canonicalCells 16⟩ hwf 3 3
    (by decide) (by decide)
  constructor
  · exact ((h1.2.1 (by decide) (by decide)).1).trans (by decide)
  · exact h2.1 (Or.inr ⟨by decide, by decide⟩)

theorem is_solved_iff_canonical_witness :
    (Board.mk 2 2 [1, 2, 3, 0]).is_solved = true
    ∧ (Board.mk 2 2 (swapCells (canonicalCells 4) 0 1)).is_solved
        = false := by
  have h := is_solved_iff_canonical ⟨2, 2, [1, 2, 3, 0]⟩
    (by show ([1, 2, 3, 0] : List Nat).Perm (List.range 4); decide)
  exact ⟨h.1.mpr (by decide), h.2 0 (by decide)⟩

end Jugo
